import Mathlib

/-!
Verification development for the doculint linter
(repository george-e-shaw-iv/doculint).

The program is a single-pass static checker over Go syntax trees.  Its core
lives in internal/doculint/doculint.go: the analysis function `doculint`
walks every file of one compilation unit (one package), emits documentation
violations for packages, functions, constants, types and literals in
conditionals, and finally reports packages that have no file named after
them.  The helper `validatePackageName` checks package-naming conventions.

Below, the relevant Go values are embedded shallowly:

* Go strings stay Lean `String`s; the Go standard-library string functions
  that doculint calls (`strings.TrimSpace`, `strings.HasPrefix`,
  `strings.ToLower`, `strings.ContainsAny`, `strings.Join`) are modelled
  over the character list of the string so that they evaluate by `decide`.
* The Go AST is modelled by the inductive types `Expr`, `GSpec`, `Node`:
  exactly the node shapes `doculint` dispatches on, each with the fields
  the code reads (`Pos()` becomes a `Nat`, doc comments become
  `Option String` holding the `CommentGroup.Text()` value, `Lparen.IsValid()`
  becomes a `Bool`).
* Every `pass.Reportf` call site becomes one constructor of `Violation`;
  `message` reproduces the corresponding format string.
* The map `packageWithSameNameFile` has at most one key (the single
  package name of the pass), so it is modelled by an `Option Bool`:
  `none` = key absent, `some b` = key present with value `b`.
-/

/-- Model of Go `strings.TrimSpace`: drop leading and trailing whitespace. -/
def trimSpace (s : String) : String :=
  ⟨((s.data.dropWhile Char.isWhitespace).reverse.dropWhile Char.isWhitespace).reverse⟩

/-- Model of Go `strings.HasPrefix s pre`: `pre` is a string prefix of `s`. -/
def hasPrefix (s pre : String) : Bool :=
  pre.data.isPrefixOf s.data

/-- Model of Go `strings.ToLower`: lowercase every character. -/
def toLower (s : String) : String :=
  ⟨s.data.map Char.toLower⟩

/-- Model of Go `strings.ContainsAny s chars`: some character of `chars`
occurs in `s`. -/
def containsAny (s chars : String) : Bool :=
  s.data.any (fun c => chars.data.contains c)

/-- Model of Go `strings.Join names ", "`, as used to list the names of a
grouped constant specification. -/
def joinComma : List String → String
  | [] => ""
  | [x] => x
  | x :: xs => x ++ ", " ++ joinComma xs

/-- The expression shapes the analysis distinguishes when it looks at the
condition of an `if` statement: `*ast.BasicLit` (a bare literal, carrying
its position), `*ast.Ident`, `*ast.BinaryExpr` (operator plus the two
operands `X` and `Y`), `*ast.CallExpr`, `*ast.ParenExpr`, anything else. -/
inductive Expr where
  | basicLit (pos : Nat)
  | ident (name : String)
  | binaryExpr (op : String) (x : Expr) (y : Expr)
  | callExpr (pos : Nat)
  | parenExpr (inner : Expr)
  | otherExpr

/-- The token of a Go `*ast.GenDecl`: `token.CONST`, `token.TYPE`, or any
other declaration token (`var`, `import`). -/
inductive Tok where
  | constTok
  | typeTok
  | otherTok
deriving DecidableEq

/-- One specification inside a `*ast.GenDecl`: a `*ast.ValueSpec` (list of
declared names plus its own doc comment), a `*ast.TypeSpec` (one name plus
its own doc comment), or another spec kind.  The Go code type-asserts and
silently skips specs of the unexpected kind. -/
inductive GSpec where
  | valueSpec (pos : Nat) (names : List String) (doc : Option String)
  | typeSpec (pos : Nat) (name : String) (doc : Option String)
  | otherSpec

/-- The syntax-tree nodes `doculint`'s `ast.Inspect` callback dispatches on:
function declarations (with position, name, optional doc comment and body),
`if` statements (condition plus nested statements), generic declarations
(position, token, whether a parenthesized block, optional doc comment,
specifications), and every other node kind, which is inert but whose
children are still traversed. -/
inductive Node where
  | funcDecl (pos : Nat) (name : String) (doc : Option String) (body : List Node)
  | ifStmt (cond : Expr) (body : List Node)
  | genDecl (pos : Nat) (tok : Tok) (lparen : Bool) (doc : Option String) (specs : List GSpec)
  | other (children : List Node)

/-- One file of the pass: `name` is `file.Name.Name` — in `go/ast` the
identifier of the file's package clause, not the file's on-disk simple
name — so for every file of a well-formed pass it equals
`pass.Pkg.Name()`; `doc` is the file-level package doc comment
(`file.Doc`, as its `Text()` value), `nodes` the file's syntax tree. -/
structure File where
  name : String
  doc : Option String
  nodes : List Node

/-- The analysis pass: the package name `pass.Pkg.Name()` and the files
`pass.Files` of one compilation unit. -/
structure Pass where
  pkgName : String
  files : List File

/-- One constructor per `pass.Reportf` call site of doculint.go.
Node-scoped constructors carry the reported position. -/
inductive Violation where
  | pkgNameViolation (msg : String)
  | pkgNoComment (pkg : String)
  | pkgCommentPrefix (pkg : String)
  | funcNoComment (pos : Nat) (name : String)
  | funcCommentPrefix (pos : Nat) (name : String)
  | literalInConditional (pos : Nat)
  | constBlockNoComment (pos : Nat)
  | constsShouldBeSeparated (pos : Nat) (names : List String)
  | constNoComment (pos : Nat) (name : String)
  | constCommentPrefix (pos : Nat) (name : String)
  | typeBlockNoComment (pos : Nat)
  | typeNoComment (pos : Nat) (name : String)
  | typeCommentPrefix (pos : Nat) (name : String)
  | pkgNoSameNameFile (pkg : String)
deriving DecidableEq

/-- The diagnostic message of each violation, reproducing the format
strings passed to `pass.Reportf`. -/
def message : Violation → String
  | Violation.pkgNameViolation msg => msg
  | Violation.pkgNoComment pkg =>
      "package \"" ++ pkg ++ "\" has no comment associated with it in \"" ++ pkg ++ ".go\""
  | Violation.pkgCommentPrefix pkg =>
      "comment for package \"" ++ pkg ++ "\" should begin with \"Package " ++ pkg ++ "\""
  | Violation.funcNoComment _ name =>
      "function \"" ++ name ++ "\" has no comment associated with it"
  | Violation.funcCommentPrefix _ name =>
      "comment for function \"" ++ name ++ "\" should begin with \"" ++ name ++ "\""
  | Violation.literalInConditional _ => "literal found in conditional"
  | Violation.constBlockNoComment _ => "constant block has no comment associated with it"
  | Violation.constsShouldBeSeparated _ names =>
      "constants \"" ++ joinComma names ++ "\" should be separated and each have a comment associated with them"
  | Violation.constNoComment _ name =>
      "constant \"" ++ name ++ "\" has no comment associated with it"
  | Violation.constCommentPrefix _ name =>
      "comment for constant \"" ++ name ++ "\" should begin with \"" ++ name ++ "\""
  | Violation.typeBlockNoComment _ => "type block has no comment associated with it"
  | Violation.typeNoComment _ name =>
      "type \"" ++ name ++ "\" has no comment associated with it"
  | Violation.typeCommentPrefix _ name =>
      "comment for type \"" ++ name ++ "\" should begin with \"" ++ name ++ "\""
  | Violation.pkgNoSameNameFile pkg =>
      "package \"" ++ pkg ++ "\" has no file with the same name containing package comment"

/-- `validatePackageName` (doculint.go, lines 178-188): separator check
first, then the all-lowercase check; empty string means no violation. -/
def validatePackageName (pkg : String) : String :=
  if containsAny pkg "_-" then
    "package \"" ++ pkg ++ "\" should not contain - or _ in name"
  else if toLower pkg ≠ pkg then
    "package \"" ++ pkg ++ "\" should be all lowercase"
  else
    ""

/-- The `*ast.FuncDecl` branch of the inspect callback (lines 58-77):
`func main` in package main and `init` functions are exempt; otherwise a
missing doc comment, or a trimmed comment that does not start with the
function name, each yield one violation. -/
def funcDeclCheck (pkgName : String) (pos : Nat) (name : String) (doc : Option String) :
    List Violation :=
  if pkgName = "main" ∧ name = "main" then []
  else if name = "init" then []
  else
    match doc with
    | none => [Violation.funcNoComment pos name]
    | some d =>
      if hasPrefix (trimSpace d) name then []
      else [Violation.funcCommentPrefix pos name]

/-- One operand of the conditional's binary expression: a violation exactly
when the operand is a `*ast.BasicLit`, anchored at the literal's position
(lines 84-90). -/
def basicLitCheck : Expr → List Violation
  | Expr.basicLit pos => [Violation.literalInConditional pos]
  | _ => []

/-- The `*ast.IfStmt` branch of the inspect callback (lines 78-90): if the
condition is a binary expression, check both direct operands for bare
literals; otherwise nothing. -/
def ifStmtCheck : Expr → List Violation
  | Expr.binaryExpr _ x y => basicLitCheck x ++ basicLitCheck y
  | _ => []

/-- The doc-comment check shared by single-name constant specifications
(lines 121-128): missing comment, or trimmed text not starting with the
constant's name. -/
def constDocCheck (pos : Nat) (name : String) : Option String → List Violation
  | none => [Violation.constNoComment pos name]
  | some d =>
    if hasPrefix (trimSpace d) name then []
    else [Violation.constCommentPrefix pos name]

/-- The doc-comment check for type specifications (lines 148-155). -/
def typeDocCheck (pos : Nat) (name : String) : Option String → List Violation
  | none => [Violation.typeNoComment pos name]
  | some d =>
    if hasPrefix (trimSpace d) name then []
    else [Violation.typeCommentPrefix pos name]

/-- One specification of a `token.CONST` declaration (lines 100-130):
non-`ValueSpec` specs are skipped (failed type assertion); more than one
name yields the grouped-constants violation and skips further checks;
otherwise the consulted doc comment is the spec's own when inside a
parenthesized block and the enclosing declaration's when not.  A spec with
zero names makes the Go code index `vs.Names[0]` and panic; the model
returns nothing for that malformed input. -/
def constSpecCheck (lparen : Bool) (gdoc : Option String) : GSpec → List Violation
  | GSpec.valueSpec pos names sdoc =>
    if names.length > 1 then
      [Violation.constsShouldBeSeparated pos names]
    else
      match names with
      | [] => []
      | name :: _ => constDocCheck pos name (if lparen then sdoc else gdoc)
  | _ => []

/-- One specification of a `token.TYPE` declaration (lines 139-157):
non-`TypeSpec` specs are skipped; the consulted doc comment is the spec's
own inside a parenthesized block, the enclosing declaration's otherwise. -/
def typeSpecCheck (lparen : Bool) (gdoc : Option String) : GSpec → List Violation
  | GSpec.typeSpec pos name sdoc => typeDocCheck pos name (if lparen then sdoc else gdoc)
  | _ => []

/-- The `*ast.GenDecl` branch of the inspect callback (lines 91-158): for
constant and type declarations, a parenthesized block without a doc comment
yields one block-level violation, then every specification is checked;
other declaration tokens are inert. -/
def genDeclCheck (pos : Nat) (tok : Tok) (lparen : Bool) (doc : Option String)
    (specs : List GSpec) : List Violation :=
  if tok = Tok.constTok then
    (if lparen ∧ doc = none then [Violation.constBlockNoComment pos] else []) ++
      specs.flatMap (constSpecCheck lparen doc)
  else if tok = Tok.typeTok then
    (if lparen ∧ doc = none then [Violation.typeBlockNoComment pos] else []) ++
      specs.flatMap (typeSpecCheck lparen doc)
  else
    []

mutual

/-- The `ast.Inspect` traversal (lines 56-164): every branch of the type
switch returns `true`, so after a node's own checks its children are always
visited.  The children relevant to the rules are the nested statements of
function bodies and `if` bodies and the children of inert nodes. -/
def inspectNode (pkgName : String) : Node → List Violation
  | Node.funcDecl pos name doc body =>
      funcDeclCheck pkgName pos name doc ++ inspectList pkgName body
  | Node.ifStmt cond body =>
      ifStmtCheck cond ++ inspectList pkgName body
  | Node.genDecl pos tok lparen doc specs =>
      genDeclCheck pos tok lparen doc specs
  | Node.other children =>
      inspectList pkgName children

/-- Traversal of a list of sibling nodes, in order. -/
def inspectList (pkgName : String) : List Node → List Violation
  | [] => []
  | n :: ns => inspectNode pkgName n ++ inspectList pkgName ns

end

/-- The package-doc check applied to a file whose name equals the package
name (lines 45-52): report the missing package comment, or a comment whose
trimmed text does not start with `Package <name>`. -/
def packageDocCheck (pkgName : String) (doc : Option String) : List Violation :=
  match doc with
  | none => [Violation.pkgNoComment pkgName]
  | some d =>
    if hasPrefix (trimSpace d) ("Package " ++ pkgName) then []
    else [Violation.pkgCommentPrefix pkgName]

/-- Lines 38-40: insert the package's entry into `packageWithSameNameFile`
with value `false` if it does not already exist. -/
def insertDefault (st : Option Bool) : Option Bool :=
  match st with
  | none => some false
  | some b => some b

/-- The body of the per-file loop (lines 32-165) for one file, threading
the `packageWithSameNameFile` entry for the pass's package (`none` = entry
absent).  For package main only the tree walk runs; otherwise the entry is
inserted with value `false` if absent, and a file whose `file.Name.Name`
equals the package name is marked `true` and undergoes the package-doc
check.  Because `file.Name.Name` is the package-clause identifier, line
42's guard holds for every file of a well-formed pass, so there the
`else` branch is never taken. -/
def fileStep (pkgName : String) (st : Option Bool) (f : File) :
    Option Bool × List Violation :=
  if pkgName = "main" then
    (st, inspectList pkgName f.nodes)
  else if f.name = pkgName then
    (some true, packageDocCheck pkgName f.doc ++ inspectList pkgName f.nodes)
  else
    (insertDefault st, inspectList pkgName f.nodes)

/-- The per-file loop over all files of the pass, accumulating the state
and the reported violations in order. -/
def runFiles (pkgName : String) (st : Option Bool) : List File → Option Bool × List Violation
  | [] => (st, [])
  | f :: fs =>
    let step := fileStep pkgName st f
    let rest := runFiles pkgName step.1 fs
    (rest.1, step.2 ++ rest.2)

/-- `doculint` (doculint.go, lines 22-174): the package-name check, the
per-file loop, then the finalization loop over `packageWithSameNameFile`
(at most one key), which reports every package whose entry is still
`false`. -/
def doculint (p : Pass) : List Violation :=
  let nameMsg := validatePackageName p.pkgName
  let nameV : List Violation :=
    if nameMsg ≠ "" then [Violation.pkgNameViolation nameMsg] else []
  let run := runFiles p.pkgName none p.files
  let finalV : List Violation :=
    match run.1 with
    | some false => [Violation.pkgNoSameNameFile p.pkgName]
    | _ => []
  nameV ++ run.2 ++ finalV

/-- The two package-doc violation kinds a file whose name matches the
package can trigger. -/
def isPkgDocViolation : Violation → Bool
  | Violation.pkgNoComment _ => true
  | Violation.pkgCommentPrefix _ => true
  | _ => false

/-- The package-naming violation kind produced via `validatePackageName`. -/
def isNamingViolation : Violation → Bool
  | Violation.pkgNameViolation _ => true
  | _ => false

/-- The finalization-only violation kind. -/
def isSameNameFileViolation : Violation → Bool
  | Violation.pkgNoSameNameFile _ => true
  | _ => false

/-- The literal-in-conditional violation kind. -/
def isLiteralViolation : Violation → Bool
  | Violation.literalInConditional _ => true
  | _ => false

/-- Node-scoped violation kinds: everything the tree walk can emit. -/
def nodeScoped : Violation → Bool
  | Violation.funcNoComment _ _ => true
  | Violation.funcCommentPrefix _ _ => true
  | Violation.literalInConditional _ => true
  | Violation.constBlockNoComment _ => true
  | Violation.constsShouldBeSeparated _ _ => true
  | Violation.constNoComment _ _ => true
  | Violation.constCommentPrefix _ _ => true
  | Violation.typeBlockNoComment _ => true
  | Violation.typeNoComment _ _ => true
  | Violation.typeCommentPrefix _ _ => true
  | _ => false

/-- Whether an operand expression is a bare literal (`*ast.BasicLit`). -/
def isBareLit : Expr → Bool
  | Expr.basicLit _ => true
  | _ => false

/-- Whether an expression is a binary expression (`*ast.BinaryExpr`). -/
def isBinaryExpr : Expr → Bool
  | Expr.binaryExpr _ _ _ => true
  | _ => false

theorem funcDeclCheck_nodeScoped (pkgName : String) (pos : Nat) (name : String)
    (doc : Option String) :
    ∀ v ∈ funcDeclCheck pkgName pos name doc, nodeScoped v = true := by
  intro v hv
  unfold funcDeclCheck at hv
  repeat' split at hv
  all_goals simp_all [nodeScoped]

theorem basicLitCheck_nodeScoped (e : Expr) :
    ∀ v ∈ basicLitCheck e, nodeScoped v = true := by
  intro v hv
  cases e <;> simp_all [basicLitCheck, nodeScoped]

theorem ifStmtCheck_nodeScoped (cond : Expr) :
    ∀ v ∈ ifStmtCheck cond, nodeScoped v = true := by
  intro v hv
  cases cond <;> simp only [ifStmtCheck] at hv
  case binaryExpr op x y =>
    rw [List.mem_append] at hv
    rcases hv with h | h
    · exact basicLitCheck_nodeScoped x v h
    · exact basicLitCheck_nodeScoped y v h
  all_goals simp_all

theorem constDocCheck_nodeScoped (pos : Nat) (name : String) (doc : Option String) :
    ∀ v ∈ constDocCheck pos name doc, nodeScoped v = true := by
  intro v hv
  cases doc with
  | none => simp_all [constDocCheck, nodeScoped]
  | some d =>
    simp only [constDocCheck] at hv
    split at hv <;> simp_all [nodeScoped]

theorem typeDocCheck_nodeScoped (pos : Nat) (name : String) (doc : Option String) :
    ∀ v ∈ typeDocCheck pos name doc, nodeScoped v = true := by
  intro v hv
  cases doc with
  | none => simp_all [typeDocCheck, nodeScoped]
  | some d =>
    simp only [typeDocCheck] at hv
    split at hv <;> simp_all [nodeScoped]

theorem constSpecCheck_nodeScoped (lparen : Bool) (gdoc : Option String) (s : GSpec) :
    ∀ v ∈ constSpecCheck lparen gdoc s, nodeScoped v = true := by
  intro v hv
  cases s with
  | valueSpec pos names sdoc =>
    simp only [constSpecCheck] at hv
    split at hv
    · simp_all [nodeScoped]
    · split at hv
      · simp at hv
      · exact constDocCheck_nodeScoped _ _ _ v hv
  | typeSpec pos name sdoc => simp [constSpecCheck] at hv
  | otherSpec => simp [constSpecCheck] at hv

theorem typeSpecCheck_nodeScoped (lparen : Bool) (gdoc : Option String) (s : GSpec) :
    ∀ v ∈ typeSpecCheck lparen gdoc s, nodeScoped v = true := by
  intro v hv
  cases s with
  | typeSpec pos name sdoc =>
    simp only [typeSpecCheck] at hv
    exact typeDocCheck_nodeScoped _ _ _ v hv
  | valueSpec pos names sdoc => simp [typeSpecCheck] at hv
  | otherSpec => simp [typeSpecCheck] at hv

theorem genDeclCheck_nodeScoped (pos : Nat) (tok : Tok) (lparen : Bool)
    (doc : Option String) (specs : List GSpec) :
    ∀ v ∈ genDeclCheck pos tok lparen doc specs, nodeScoped v = true := by
  intro v hv
  unfold genDeclCheck at hv
  split at hv
  · rw [List.mem_append] at hv
    rcases hv with h | h
    · split at h <;> simp_all [nodeScoped]
    · rw [List.mem_flatMap] at h
      obtain ⟨s, _, hs⟩ := h
      exact constSpecCheck_nodeScoped lparen doc s v hs
  · split at hv
    · rw [List.mem_append] at hv
      rcases hv with h | h
      · split at h <;> simp_all [nodeScoped]
      · rw [List.mem_flatMap] at h
        obtain ⟨s, _, hs⟩ := h
        exact typeSpecCheck_nodeScoped lparen doc s v hs
    · simp at hv

mutual

theorem inspectNode_nodeScoped (pkgName : String) (n : Node) :
    ∀ v ∈ inspectNode pkgName n, nodeScoped v = true := by
  cases n with
  | funcDecl pos name doc body =>
    intro v hv
    simp only [inspectNode, List.mem_append] at hv
    rcases hv with h | h
    · exact funcDeclCheck_nodeScoped pkgName pos name doc v h
    · exact inspectList_nodeScoped pkgName body v h
  | ifStmt cond body =>
    intro v hv
    simp only [inspectNode, List.mem_append] at hv
    rcases hv with h | h
    · exact ifStmtCheck_nodeScoped cond v h
    · exact inspectList_nodeScoped pkgName body v h
  | genDecl pos tok lparen doc specs =>
    intro v hv
    simp only [inspectNode] at hv
    exact genDeclCheck_nodeScoped pos tok lparen doc specs v hv
  | other children =>
    intro v hv
    simp only [inspectNode] at hv
    exact inspectList_nodeScoped pkgName children v hv

theorem inspectList_nodeScoped (pkgName : String) (ns : List Node) :
    ∀ v ∈ inspectList pkgName ns, nodeScoped v = true := by
  cases ns with
  | nil => intro v hv; simp [inspectList] at hv
  | cons n ns =>
    intro v hv
    simp only [inspectList, List.mem_append] at hv
    rcases hv with h | h
    · exact inspectNode_nodeScoped pkgName n v h
    · exact inspectList_nodeScoped pkgName ns v h

end

theorem packageDocCheck_pkgDoc (pkgName : String) (doc : Option String) :
    ∀ v ∈ packageDocCheck pkgName doc, isPkgDocViolation v = true := by
  intro v hv
  cases doc with
  | none => simp_all [packageDocCheck, isPkgDocViolation]
  | some d =>
    simp only [packageDocCheck] at hv
    split at hv <;> simp_all [isPkgDocViolation]

theorem nodeScoped_kinds (v : Violation) (h : nodeScoped v = true) :
    isPkgDocViolation v = false ∧ isNamingViolation v = false ∧
      isSameNameFileViolation v = false := by
  cases v <;> simp_all [nodeScoped, isPkgDocViolation, isNamingViolation,
    isSameNameFileViolation]

theorem pkgDoc_kinds (v : Violation) (h : isPkgDocViolation v = true) :
    isNamingViolation v = false ∧ isSameNameFileViolation v = false := by
  cases v <;> simp_all [isPkgDocViolation, isNamingViolation, isSameNameFileViolation]

theorem insertDefault_eq_some_true_iff (st : Option Bool) :
    insertDefault st = some true ↔ st = some true := by
  cases st <;> simp [insertDefault]

theorem runFiles_nil (pkgName : String) (st : Option Bool) :
    runFiles pkgName st [] = (st, []) := rfl

theorem runFiles_cons_fst (pkgName : String) (st : Option Bool) (f : File) (fs : List File) :
    (runFiles pkgName st (f :: fs)).1 = (runFiles pkgName (fileStep pkgName st f).1 fs).1 := rfl

theorem runFiles_cons_snd (pkgName : String) (st : Option Bool) (f : File) (fs : List File) :
    (runFiles pkgName st (f :: fs)).2 =
      (fileStep pkgName st f).2 ++ (runFiles pkgName (fileStep pkgName st f).1 fs).2 := rfl

theorem fileStep_fst (pkgName : String) (st : Option Bool) (f : File)
    (hm : pkgName ≠ "main") :
    (fileStep pkgName st f).1 =
      if f.name = pkgName then some true else insertDefault st := by
  unfold fileStep
  rw [if_neg hm]
  split <;> rfl

theorem fileStep_scoped (pkgName : String) (st : Option Bool) (f : File) :
    ∀ v ∈ (fileStep pkgName st f).2,
      isPkgDocViolation v = true ∨ nodeScoped v = true := by
  intro v hv
  unfold fileStep at hv
  split at hv
  · exact Or.inr (inspectList_nodeScoped pkgName f.nodes v hv)
  · split at hv
    · simp only [List.mem_append] at hv
      rcases hv with h | h
      · exact Or.inl (packageDocCheck_pkgDoc pkgName f.doc v h)
      · exact Or.inr (inspectList_nodeScoped pkgName f.nodes v h)
    · exact Or.inr (inspectList_nodeScoped pkgName f.nodes v hv)

theorem runFiles_scoped (pkgName : String) (fs : List File) :
    ∀ st : Option Bool, ∀ v ∈ (runFiles pkgName st fs).2,
      isPkgDocViolation v = true ∨ nodeScoped v = true := by
  induction fs with
  | nil => intro st v hv; simp [runFiles_nil] at hv
  | cons f fs ih =>
    intro st v hv
    rw [runFiles_cons_snd, List.mem_append] at hv
    rcases hv with h | h
    · exact fileStep_scoped pkgName st f v h
    · exact ih (fileStep pkgName st f).1 v h

theorem runFiles_countP_sameName (pkgName : String) (st : Option Bool) (fs : List File) :
    (runFiles pkgName st fs).2.countP isSameNameFileViolation = 0 :=
  List.countP_eq_zero.mpr (fun v hv => by
    rcases runFiles_scoped pkgName fs st v hv with h | h
    · simp [(pkgDoc_kinds v h).2]
    · simp [(nodeScoped_kinds v h).2.2])

theorem runFiles_fst_true_iff (pkgName : String) (hm : pkgName ≠ "main")
    (fs : List File) : ∀ st : Option Bool,
    ((runFiles pkgName st fs).1 = some true ↔
      st = some true ∨ ∃ f ∈ fs, f.name = pkgName) := by
  induction fs with
  | nil => intro st; simp [runFiles_nil]
  | cons f fs ih =>
    intro st
    rw [runFiles_cons_fst, ih (fileStep pkgName st f).1, fileStep_fst pkgName st f hm]
    by_cases hf : f.name = pkgName
    · rw [if_pos hf]
      constructor
      · intro _
        exact Or.inr ⟨f, List.mem_cons_self f fs, hf⟩
      · intro _
        exact Or.inl rfl
    · rw [if_neg hf, insertDefault_eq_some_true_iff]
      constructor
      · rintro (h | ⟨g, hg, hgn⟩)
        · exact Or.inl h
        · exact Or.inr ⟨g, List.mem_cons_of_mem f hg, hgn⟩
      · rintro (h | ⟨g, hg, hgn⟩)
        · exact Or.inl h
        · rcases List.mem_cons.mp hg with hgf | hgf
          · subst hgf
            exact absurd hgn hf
          · exact Or.inr ⟨g, hgf, hgn⟩

theorem doculint_eq (p : Pass) :
    doculint p =
      (if validatePackageName p.pkgName ≠ "" then
        [Violation.pkgNameViolation (validatePackageName p.pkgName)] else []) ++
      (runFiles p.pkgName none p.files).2 ++
      (match (runFiles p.pkgName none p.files).1 with
        | some false => [Violation.pkgNoSameNameFile p.pkgName]
        | _ => []) := rfl

theorem inspectList_countP (pkgName : String) (ns : List Node) (q : Violation → Bool)
    (hq : ∀ v, nodeScoped v = true → q v = false) :
    (inspectList pkgName ns).countP q = 0 :=
  List.countP_eq_zero.mpr (fun v hv => by
    simp [hq v (inspectList_nodeScoped pkgName ns v hv)])

/-- C1 (code bug): line 42 compares `file.Name.Name`, the identifier of
the file's package clause, with `pass.Pkg.Name()`; in `go/ast` these are
equal for every file of a well-formed pass.  Hence for a non-entry
package the per-file package-doc check fires on every file and the
`packageWithSameNameFile` entry is always set `true` — also for a file
whose on-disk simple name differs from the package identifier, contrary
to the claim.  The witness evaluates the code on such a file (an
undocumented `helpers.go` of package `mypkg`, whose package clause reads
`mypkg`): the check fires and emits the missing-package-comment
violation. -/
theorem claim_C1 (pkgName : String) (st : Option Bool) (f : File)
    (hm : pkgName ≠ "main") (hwf : f.name = pkgName) :
    (fileStep pkgName st f).1 = some true ∧
    (fileStep pkgName st f).2.filter isPkgDocViolation =
      packageDocCheck pkgName f.doc := by
  constructor
  · unfold fileStep
    rw [if_neg hm, if_pos hwf]
  · unfold fileStep
    rw [if_neg hm, if_pos hwf]
    show (packageDocCheck pkgName f.doc ++
        inspectList pkgName f.nodes).filter isPkgDocViolation =
      packageDocCheck pkgName f.doc
    rw [List.filter_append,
      List.filter_eq_self.mpr (packageDocCheck_pkgDoc pkgName f.doc),
      List.filter_eq_nil_iff.mpr (fun v hv => by
        simp [(nodeScoped_kinds v (inspectList_nodeScoped pkgName f.nodes v hv)).1])]
    simp

theorem claim_C1_witness :
    (fileStep "mypkg" none (File.mk "mypkg" none [])).1 = some true ∧
    (fileStep "mypkg" none (File.mk "mypkg" none [])).2.filter isPkgDocViolation =
      packageDocCheck "mypkg" none :=
  claim_C1 "mypkg" none (File.mk "mypkg" none []) (by decide) rfl

/-- C2 (code bug): because line 42's guard holds for every file of a
well-formed pass, the first file already sets the package's
`packageWithSameNameFile` entry to `true`; finalization therefore emits
zero "no file with the same name" violations for every non-entry unit
with at least one file — never the exactly-one the claim requires for a
unit in which no file's on-disk simple name matches the package
identifier (witness: a unit whose only file is an undocumented
`helpers.go`). -/
theorem claim_C2 (p : Pass) (hm : p.pkgName ≠ "main") (hne : p.files ≠ [])
    (hwf : ∀ f ∈ p.files, f.name = p.pkgName) :
    (doculint p).countP (fun v => v = Violation.pkgNoSameNameFile p.pkgName) = 0 := by
  rw [doculint_eq, List.countP_append, List.countP_append]
  have h1 : (if validatePackageName p.pkgName ≠ "" then
      [Violation.pkgNameViolation (validatePackageName p.pkgName)] else []).countP
      (fun v => v = Violation.pkgNoSameNameFile p.pkgName) = 0 := by
    split <;> simp
  have h2 : (runFiles p.pkgName none p.files).2.countP
      (fun v => v = Violation.pkgNoSameNameFile p.pkgName) = 0 := by
    apply List.countP_eq_zero.mpr
    intro v hv
    simp only [decide_eq_true_eq]
    intro heq
    subst heq
    rcases runFiles_scoped p.pkgName p.files none _ hv with h | h
    · simpa [isSameNameFileViolation] using (pkgDoc_kinds _ h).2
    · simpa [isSameNameFileViolation] using (nodeScoped_kinds _ h).2.2
  have hfst : (runFiles p.pkgName none p.files).1 = some true := by
    rw [runFiles_fst_true_iff p.pkgName hm p.files none]
    right
    obtain ⟨f, hf⟩ := List.exists_mem_of_ne_nil p.files hne
    exact ⟨f, hf, hwf f hf⟩
  rw [h1, h2, hfst]
  simp

theorem claim_C2_witness :
    (doculint (Pass.mk "mypkg" [File.mk "mypkg" none []])).countP
      (fun v => v = Violation.pkgNoSameNameFile "mypkg") = 0 :=
  claim_C2 (Pass.mk "mypkg" [File.mk "mypkg" none []]) (by decide)
    (List.cons_ne_nil _ _) (by decide)

theorem runFiles_countP_pkgNoComment (pkgName : String) (hm : pkgName ≠ "main")
    (fs : List File) : ∀ st : Option Bool, (∀ f ∈ fs, f.name = pkgName) →
      (runFiles pkgName st fs).2.countP (fun v => v = Violation.pkgNoComment pkgName) =
        fs.countP (fun f => f.doc = none) := by
  induction fs with
  | nil => intro st _; simp [runFiles_nil]
  | cons f fs ih =>
    intro st hwf
    rw [runFiles_cons_snd, List.countP_append, List.countP_cons,
      ih (fileStep pkgName st f).1 (fun g hg => hwf g (List.mem_cons_of_mem f hg))]
    have hf := hwf f (List.mem_cons_self f fs)
    have h1 : (fileStep pkgName st f).2.countP
        (fun v => v = Violation.pkgNoComment pkgName) =
        if f.doc = none then 1 else 0 := by
      unfold fileStep
      rw [if_neg hm, if_pos hf]
      show (packageDocCheck pkgName f.doc ++
          inspectList pkgName f.nodes).countP
          (fun v => v = Violation.pkgNoComment pkgName) = _
      rw [List.countP_append,
        inspectList_countP pkgName f.nodes _ (fun v hv => by
          have h := (nodeScoped_kinds v hv).1
          cases v <;> simp_all [isPkgDocViolation])]
      cases hd : f.doc with
      | none => simp [packageDocCheck, List.countP_cons]
      | some d =>
        simp only [packageDocCheck]
        split <;> simp [List.countP_cons]
    rw [h1]
    by_cases hd : f.doc = none <;> simp [hd] <;> omega

/-- C3 (code bug): with line 42's guard holding for every file of a
well-formed pass, the code emits one missing-package-comment violation
per undocumented file, so that count equals the number of files without a
doc comment; the at-most-once invariant fails, and the claim's own
scenario (`mypkg.go` and `helpers.go`, both files of package `mypkg` and
both undocumented) yields two such violations (witness), not one. -/
theorem claim_C3 (p : Pass) (hm : p.pkgName ≠ "main")
    (hwf : ∀ f ∈ p.files, f.name = p.pkgName) :
    (doculint p).countP (fun v => v = Violation.pkgNoComment p.pkgName) =
      p.files.countP (fun f => f.doc = none) := by
  rw [doculint_eq, List.countP_append, List.countP_append,
    runFiles_countP_pkgNoComment p.pkgName hm p.files none hwf]
  have h1 : (if validatePackageName p.pkgName ≠ "" then
      [Violation.pkgNameViolation (validatePackageName p.pkgName)] else []).countP
      (fun v => v = Violation.pkgNoComment p.pkgName) = 0 := by
    split <;> simp
  have h3 : (match (runFiles p.pkgName none p.files).1 with
      | some false => [Violation.pkgNoSameNameFile p.pkgName]
      | _ => []).countP (fun v => v = Violation.pkgNoComment p.pkgName) = 0 := by
    cases (runFiles p.pkgName none p.files).1 with
    | none => simp
    | some b => cases b <;> simp [List.countP_cons]
  rw [h1, h3]
  omega

theorem claim_C3_witness :
    (doculint (Pass.mk "mypkg" [File.mk "mypkg" none [], File.mk "mypkg" none []])).countP
      (fun v => v = Violation.pkgNoComment "mypkg") = 2 := by
  rw [claim_C3 (Pass.mk "mypkg" [File.mk "mypkg" none [], File.mk "mypkg" none []])
    (by decide) (by decide)]
  decide

theorem basicLitCheck_eq_nil (e : Expr) (h : isBareLit e = false) : basicLitCheck e = [] := by
  cases e <;> simp_all [isBareLit, basicLitCheck]

/-- C4: a non-exempt function yields exactly one of three mutually
exclusive outcomes (comment with the right prefix and no violation, a
comment with the wrong prefix and one prefix violation, or no comment and
one missing-comment violation); `func main` of package main and `init`
functions yield no doc-comment violation, but their bodies are still
traversed. -/
theorem claim_C4 (pkgName : String) (pos : Nat) (name : String) (doc : Option String)
    (body : List Node) :
    (inspectNode pkgName (Node.funcDecl pos name doc body) =
      funcDeclCheck pkgName pos name doc ++ inspectList pkgName body) ∧
    (((pkgName = "main" ∧ name = "main") ∨ name = "init") →
      funcDeclCheck pkgName pos name doc = []) ∧
    (¬(pkgName = "main" ∧ name = "main") → name ≠ "init" →
      ((doc = none →
        funcDeclCheck pkgName pos name doc = [Violation.funcNoComment pos name]) ∧
      (∀ d, doc = some d → hasPrefix (trimSpace d) name = true →
        funcDeclCheck pkgName pos name doc = []) ∧
      (∀ d, doc = some d → hasPrefix (trimSpace d) name = false →
        funcDeclCheck pkgName pos name doc = [Violation.funcCommentPrefix pos name]))) := by
  refine ⟨rfl, ?_, ?_⟩
  · intro h
    unfold funcDeclCheck
    rcases h with ⟨h1, h2⟩ | h
    · rw [if_pos ⟨h1, h2⟩]
    · split
      · rfl
      · rfl
  · intro h1 h2
    refine ⟨?_, ?_, ?_⟩
    · intro hd
      subst hd
      unfold funcDeclCheck
      rw [if_neg h1, if_neg h2]
    · intro d hd hpre
      subst hd
      unfold funcDeclCheck
      rw [if_neg h1, if_neg h2]
      simp [hpre]
    · intro d hd hpre
      subst hd
      unfold funcDeclCheck
      rw [if_neg h1, if_neg h2]
      simp [hpre]

theorem claim_C4_witness :
    inspectNode "pkg" (Node.funcDecl 0 "init" none
      [Node.ifStmt (Expr.binaryExpr "==" (Expr.basicLit 7) (Expr.ident "x")) []]) =
      [Violation.literalInConditional 7] := by
  have h := claim_C4 "pkg" 0 "init" none
    [Node.ifStmt (Expr.binaryExpr "==" (Expr.basicLit 7) (Expr.ident "x")) []]
  rw [h.1, h.2.1 (Or.inr rfl)]
  decide

/-- C5: for an `if` condition that is a top-level binary comparison, one
literal-in-conditional violation is emitted per bare-literal operand,
anchored at that literal's position; non-literal operands are never
flagged (two literals give two violations, one gives one, none give
zero). -/
theorem claim_C5 (op : String) (x y : Expr)
    (hop : op = "==" ∨ op = "!=" ∨ op = "<" ∨ op = "<=" ∨ op = ">" ∨ op = ">=") :
    (∀ px py, x = Expr.basicLit px → y = Expr.basicLit py →
      ifStmtCheck (Expr.binaryExpr op x y) =
        [Violation.literalInConditional px, Violation.literalInConditional py]) ∧
    (isBareLit x = false → ∀ py, y = Expr.basicLit py →
      ifStmtCheck (Expr.binaryExpr op x y) = [Violation.literalInConditional py]) ∧
    (isBareLit y = false → ∀ px, x = Expr.basicLit px →
      ifStmtCheck (Expr.binaryExpr op x y) = [Violation.literalInConditional px]) ∧
    (isBareLit x = false → isBareLit y = false →
      ifStmtCheck (Expr.binaryExpr op x y) = []) := by
  refine ⟨?_, ?_, ?_, ?_⟩
  · intro px py hx hy
    subst hx
    subst hy
    rfl
  · intro hx py hy
    subst hy
    show basicLitCheck x ++ basicLitCheck (Expr.basicLit py) = _
    rw [basicLitCheck_eq_nil x hx]
    rfl
  · intro hy px hx
    subst hx
    show basicLitCheck (Expr.basicLit px) ++ basicLitCheck y = _
    rw [basicLitCheck_eq_nil y hy]
    rfl
  · intro hx hy
    show basicLitCheck x ++ basicLitCheck y = []
    rw [basicLitCheck_eq_nil x hx, basicLitCheck_eq_nil y hy]
    rfl

theorem claim_C5_witness :
    ifStmtCheck (Expr.binaryExpr "==" (Expr.ident "x") (Expr.basicLit 5)) =
      [Violation.literalInConditional 5] :=
  (claim_C5 "==" (Expr.ident "x") (Expr.basicLit 5) (Or.inl rfl)).2.1 rfl 5 rfl

/-- C6: `validatePackageName` is total and deterministic with fixed rule
order: an identifier containing `-` or `_` always gets the separator
violation (never the casing violation, even if it also has uppercase
letters); a separator-free identifier that is not all-lowercase gets the
casing violation; an all-lowercase separator-free identifier gets none. -/
theorem claim_C6 (pkg : String) :
    (containsAny pkg "_-" = true →
      validatePackageName pkg =
        "package \"" ++ pkg ++ "\" should not contain - or _ in name" ∧
      validatePackageName pkg ≠
        "package \"" ++ pkg ++ "\" should be all lowercase") ∧
    (containsAny pkg "_-" = false → toLower pkg ≠ pkg →
      validatePackageName pkg = "package \"" ++ pkg ++ "\" should be all lowercase") ∧
    (containsAny pkg "_-" = false → toLower pkg = pkg →
      validatePackageName pkg = "") := by
  refine ⟨?_, ?_, ?_⟩
  · intro h
    have hv : validatePackageName pkg =
        "package \"" ++ pkg ++ "\" should not contain - or _ in name" := by
      unfold validatePackageName
      rw [if_pos h]
    refine ⟨hv, ?_⟩
    rw [hv]
    intro heq
    have hlen := congrArg String.length heq
    simp only [String.length_append] at hlen
    have hne : ("\" should not contain - or _ in name" : String).length ≠
        ("\" should be all lowercase" : String).length := by decide
    omega
  · intro h htl
    unfold validatePackageName
    rw [if_neg (by simp [h]), if_pos htl]
  · intro h htl
    unfold validatePackageName
    rw [if_neg (by simp [h]), if_neg (by simp [htl])]

theorem claim_C6_witness :
    validatePackageName "my_Pkg" =
      "package \"my_Pkg\" should not contain - or _ in name" ∧
    validatePackageName "myPkg" = "package \"myPkg\" should be all lowercase" ∧
    validatePackageName "mypkg" = "" :=
  ⟨((claim_C6 "my_Pkg").1 (by decide)).1,
    (claim_C6 "myPkg").2.1 (by decide) (by decide),
    (claim_C6 "mypkg").2.2 (by decide) (by decide)⟩

/-- C7: a constant specification that declares more than one name jointly
yields exactly the single "should be separated" violation listing all its
names, with no per-name missing-comment or prefix violations. -/
theorem claim_C7 (lparen : Bool) (gdoc : Option String) (pos : Nat)
    (names : List String) (sdoc : Option String) (h : names.length > 1) :
    constSpecCheck lparen gdoc (GSpec.valueSpec pos names sdoc) =
      [Violation.constsShouldBeSeparated pos names] := by
  simp only [constSpecCheck]
  rw [if_pos h]

theorem claim_C7_witness :
    constSpecCheck true none (GSpec.valueSpec 3 ["a", "b"] none) =
      [Violation.constsShouldBeSeparated 3 ["a", "b"]] :=
  claim_C7 true none 3 ["a", "b"] none (by decide)

theorem constDocCheck_no_block (pos : Nat) (name : String) (doc : Option String)
    (q : Nat) : ∀ v ∈ constDocCheck pos name doc, v ≠ Violation.constBlockNoComment q := by
  intro v hv
  cases doc with
  | none => simp_all [constDocCheck]
  | some d =>
    simp only [constDocCheck] at hv
    split at hv <;> simp_all

theorem typeDocCheck_no_block (pos : Nat) (name : String) (doc : Option String)
    (q : Nat) : ∀ v ∈ typeDocCheck pos name doc, v ≠ Violation.typeBlockNoComment q := by
  intro v hv
  cases doc with
  | none => simp_all [typeDocCheck]
  | some d =>
    simp only [typeDocCheck] at hv
    split at hv <;> simp_all

theorem constSpecCheck_no_block (lparen : Bool) (gdoc : Option String) (s : GSpec)
    (q : Nat) : ∀ v ∈ constSpecCheck lparen gdoc s, v ≠ Violation.constBlockNoComment q := by
  intro v hv
  cases s with
  | valueSpec pos names sdoc =>
    simp only [constSpecCheck] at hv
    split at hv
    · simp_all
    · split at hv
      · simp at hv
      · exact constDocCheck_no_block _ _ _ q v hv
  | typeSpec pos name sdoc => simp [constSpecCheck] at hv
  | otherSpec => simp [constSpecCheck] at hv

theorem typeSpecCheck_no_block (lparen : Bool) (gdoc : Option String) (s : GSpec)
    (q : Nat) : ∀ v ∈ typeSpecCheck lparen gdoc s, v ≠ Violation.typeBlockNoComment q := by
  intro v hv
  cases s with
  | typeSpec pos name sdoc =>
    simp only [typeSpecCheck] at hv
    exact typeDocCheck_no_block _ _ _ q v hv
  | valueSpec pos names sdoc => simp [typeSpecCheck] at hv
  | otherSpec => simp [typeSpecCheck] at hv

theorem genDeclCheck_const_block_count (bpos : Nat) (specs : List GSpec)
    (doc : Option String) :
    (genDeclCheck bpos Tok.constTok true doc specs).countP
      (fun v => v = Violation.constBlockNoComment bpos) =
      if doc = none then 1 else 0 := by
  unfold genDeclCheck
  rw [if_pos rfl, List.countP_append]
  have hspec : (specs.flatMap (constSpecCheck true doc)).countP
      (fun v => v = Violation.constBlockNoComment bpos) = 0 :=
    List.countP_eq_zero.mpr (fun v hv => by
      rw [List.mem_flatMap] at hv
      obtain ⟨s, _, hs⟩ := hv
      simp [constSpecCheck_no_block true doc s bpos v hs])
  rw [hspec]
  cases doc with
  | none => simp [List.countP_cons]
  | some d => simp

theorem genDeclCheck_type_block_count (bpos : Nat) (specs : List GSpec)
    (doc : Option String) :
    (genDeclCheck bpos Tok.typeTok true doc specs).countP
      (fun v => v = Violation.typeBlockNoComment bpos) =
      if doc = none then 1 else 0 := by
  unfold genDeclCheck
  rw [if_neg (by simp), if_pos rfl, List.countP_append]
  have hspec : (specs.flatMap (typeSpecCheck true doc)).countP
      (fun v => v = Violation.typeBlockNoComment bpos) = 0 :=
    List.countP_eq_zero.mpr (fun v hv => by
      rw [List.mem_flatMap] at hv
      obtain ⟨s, _, hs⟩ := hv
      simp [typeSpecCheck_no_block true doc s bpos v hs])
  rw [hspec]
  cases doc with
  | none => simp [List.countP_cons]
  | some d => simp

/-- C8: a parenthesized constant (or type) block without a doc comment
yields exactly one block-level "has no comment" violation and with a doc
comment none; for a single-name specification, the doc comment consulted
is the specification's own inside a parenthesized block and the enclosing
declaration's for a singleton declaration. -/
theorem claim_C8 (bpos : Nat) (specs : List GSpec) (pos : Nat) (name : String)
    (gdoc sdoc : Option String) (d : String) :
    ((genDeclCheck bpos Tok.constTok true none specs).countP
      (fun v => v = Violation.constBlockNoComment bpos) = 1) ∧
    ((genDeclCheck bpos Tok.constTok true (some d) specs).countP
      (fun v => v = Violation.constBlockNoComment bpos) = 0) ∧
    ((genDeclCheck bpos Tok.typeTok true none specs).countP
      (fun v => v = Violation.typeBlockNoComment bpos) = 1) ∧
    ((genDeclCheck bpos Tok.typeTok true (some d) specs).countP
      (fun v => v = Violation.typeBlockNoComment bpos) = 0) ∧
    (constSpecCheck true gdoc (GSpec.valueSpec pos [name] sdoc) =
      constDocCheck pos name sdoc) ∧
    (constSpecCheck false gdoc (GSpec.valueSpec pos [name] sdoc) =
      constDocCheck pos name gdoc) ∧
    (typeSpecCheck true gdoc (GSpec.typeSpec pos name sdoc) =
      typeDocCheck pos name sdoc) ∧
    (typeSpecCheck false gdoc (GSpec.typeSpec pos name sdoc) =
      typeDocCheck pos name gdoc) := by
  refine ⟨?_, ?_, ?_, ?_, rfl, rfl, rfl, rfl⟩
  · simpa using genDeclCheck_const_block_count bpos specs none
  · simpa using genDeclCheck_const_block_count bpos specs (some d)
  · simpa using genDeclCheck_type_block_count bpos specs none
  · simpa using genDeclCheck_type_block_count bpos specs (some d)

/-- C9: the name-prefix checks for functions, constants and types accept
any doc comment whose trimmed text has the declared name as a string
prefix, not only comments whose first whole token equals the name. -/
theorem claim_C9 (pkgName : String) (pos : Nat) (name : String) (d : String)
    (h : hasPrefix (trimSpace d) name = true) :
    funcDeclCheck pkgName pos name (some d) = [] ∧
    constDocCheck pos name (some d) = [] ∧
    typeDocCheck pos name (some d) = [] := by
  refine ⟨?_, ?_, ?_⟩
  · unfold funcDeclCheck
    split
    · rfl
    · split
      · rfl
      · simp [h]
  · simp [constDocCheck, h]
  · simp [typeDocCheck, h]

theorem claim_C9_witness :
    funcDeclCheck "p" 0 "foo" (some "foobar") = [] ∧
    constDocCheck 0 "foo" (some "foobar") = [] ∧
    typeDocCheck 0 "foo" (some "foobar") = [] :=
  claim_C9 "p" 0 "foo" "foobar" (by decide)

theorem funcDeclCheck_not_literal (pkgName : String) (pos : Nat) (name : String)
    (doc : Option String) :
    ∀ v ∈ funcDeclCheck pkgName pos name doc, isLiteralViolation v = false := by
  intro v hv
  unfold funcDeclCheck at hv
  repeat' split at hv
  all_goals simp_all [isLiteralViolation]

theorem constDocCheck_not_literal (pos : Nat) (name : String) (doc : Option String) :
    ∀ v ∈ constDocCheck pos name doc, isLiteralViolation v = false := by
  intro v hv
  cases doc with
  | none => simp_all [constDocCheck, isLiteralViolation]
  | some d =>
    simp only [constDocCheck] at hv
    split at hv <;> simp_all [isLiteralViolation]

theorem typeDocCheck_not_literal (pos : Nat) (name : String) (doc : Option String) :
    ∀ v ∈ typeDocCheck pos name doc, isLiteralViolation v = false := by
  intro v hv
  cases doc with
  | none => simp_all [typeDocCheck, isLiteralViolation]
  | some d =>
    simp only [typeDocCheck] at hv
    split at hv <;> simp_all [isLiteralViolation]

theorem constSpecCheck_not_literal (lparen : Bool) (gdoc : Option String) (s : GSpec) :
    ∀ v ∈ constSpecCheck lparen gdoc s, isLiteralViolation v = false := by
  intro v hv
  cases s with
  | valueSpec pos names sdoc =>
    simp only [constSpecCheck] at hv
    split at hv
    · simp_all [isLiteralViolation]
    · split at hv
      · simp at hv
      · exact constDocCheck_not_literal _ _ _ v hv
  | typeSpec pos name sdoc => simp [constSpecCheck] at hv
  | otherSpec => simp [constSpecCheck] at hv

theorem typeSpecCheck_not_literal (lparen : Bool) (gdoc : Option String) (s : GSpec) :
    ∀ v ∈ typeSpecCheck lparen gdoc s, isLiteralViolation v = false := by
  intro v hv
  cases s with
  | typeSpec pos name sdoc =>
    simp only [typeSpecCheck] at hv
    exact typeDocCheck_not_literal _ _ _ v hv
  | valueSpec pos names sdoc => simp [typeSpecCheck] at hv
  | otherSpec => simp [typeSpecCheck] at hv

theorem genDeclCheck_not_literal (pos : Nat) (tok : Tok) (lparen : Bool)
    (doc : Option String) (specs : List GSpec) :
    ∀ v ∈ genDeclCheck pos tok lparen doc specs, isLiteralViolation v = false := by
  intro v hv
  unfold genDeclCheck at hv
  split at hv
  · rw [List.mem_append] at hv
    rcases hv with h | h
    · split at h <;> simp_all [isLiteralViolation]
    · rw [List.mem_flatMap] at h
      obtain ⟨s, _, hs⟩ := h
      exact constSpecCheck_not_literal lparen doc s v hs
  · split at hv
    · rw [List.mem_append] at hv
      rcases hv with h | h
      · split at h <;> simp_all [isLiteralViolation]
      · rw [List.mem_flatMap] at h
        obtain ⟨s, _, hs⟩ := h
        exact typeSpecCheck_not_literal lparen doc s v hs
    · simp at hv

/-- C10: the literal-in-conditional rule applies only to `if` statements
with a binary-expression condition, with both direct operands inspected
regardless of which operator is used; an `if` whose condition is not a
binary expression produces no literal violation, the other checked node
kinds never emit a literal violation, and traversal always continues into
children. -/
theorem claim_C10 (pkgName : String) :
    (∀ op op2 x y, ifStmtCheck (Expr.binaryExpr op x y) =
      ifStmtCheck (Expr.binaryExpr op2 x y)) ∧
    (∀ op x y body, inspectNode pkgName (Node.ifStmt (Expr.binaryExpr op x y) body) =
      basicLitCheck x ++ basicLitCheck y ++ inspectList pkgName body) ∧
    (∀ cond body, isBinaryExpr cond = false →
      inspectNode pkgName (Node.ifStmt cond body) = inspectList pkgName body) ∧
    (∀ pos name doc, ∀ v ∈ funcDeclCheck pkgName pos name doc,
      isLiteralViolation v = false) ∧
    (∀ pos tok lparen doc specs, ∀ v ∈ genDeclCheck pos tok lparen doc specs,
      isLiteralViolation v = false) := by
  refine ⟨fun op op2 x y => rfl, fun op x y body => rfl, ?_, ?_, ?_⟩
  · intro cond body hc
    cases cond <;> first
      | rfl
      | simp [isBinaryExpr] at hc
  · intro pos name doc
    exact funcDeclCheck_not_literal pkgName pos name doc
  · intro pos tok lparen doc specs
    exact genDeclCheck_not_literal pos tok lparen doc specs

theorem claim_C10_witness :
    inspectNode "p" (Node.ifStmt (Expr.ident "b")
      [Node.ifStmt (Expr.binaryExpr "&&" (Expr.basicLit 3) (Expr.ident "y")) []]) =
      [Violation.literalInConditional 3] := by
  rw [(claim_C10 "p").2.2.1 (Expr.ident "b") _ rfl]
  decide
